import Mathlib

/-!
Verification of the zilliqa-rs credential-derivation core: a shallow embedding of
`src/crypto/util.rs` and `src/signers/wallet.rs` (private-key normalization,
checksummed address computation and validation, address derivation from a public
key, and the wallet's account bookkeeping and transaction-signing protocol),
together with executable models of the external collaborators the code consumes
(hex codec, SHA-256 digest).  Strings are embedded as Lean `String`
(`List Char` data); machine integers as `Nat` with explicit reductions where
width matters.
-/

set_option maxRecDepth 100000

deriving instance DecidableEq for Except

namespace ZilliqaRs

/-! ## Character primitives (ASCII, mirroring Rust `char` methods) -/

/-- Rust `char::is_ascii_digit`: the character is one of `0`..`9`. -/
def isAsciiDigit (c : Char) : Bool :=
  48 ≤ c.toNat && c.toNat ≤ 57

/-- Rust `char::to_ascii_uppercase`: map `a`..`z` to `A`..`Z`, leave everything else. -/
def asciiToUpper (c : Char) : Char :=
  if 97 ≤ c.toNat && c.toNat ≤ 122 then Char.ofNat (c.toNat - 32) else c

/-- Rust `char::to_ascii_lowercase`: map `A`..`Z` to `a`..`z`, leave everything else. -/
def asciiToLower (c : Char) : Char :=
  if 65 ≤ c.toNat && c.toNat ≤ 90 then Char.ofNat (c.toNat + 32) else c

/-- A hexadecimal digit character: `0`..`9`, `a`..`f` or `A`..`F`. -/
def isHexDigitChar (c : Char) : Bool :=
  (48 ≤ c.toNat && c.toNat ≤ 57) || (97 ≤ c.toNat && c.toNat ≤ 102) ||
    (65 ≤ c.toNat && c.toNat ≤ 70)

/-- Numeric value of a hexadecimal digit character (case-insensitive), `none`
on a non-hex character.  Models the digit handling of the external hex codec. -/
def hexVal (c : Char) : Option Nat :=
  if 48 ≤ c.toNat && c.toNat ≤ 57 then some (c.toNat - 48)
  else if 97 ≤ c.toNat && c.toNat ≤ 102 then some (c.toNat - 87)
  else if 65 ≤ c.toNat && c.toNat ≤ 70 then some (c.toNat - 55)
  else none

/-- Lowercase hex digit for a nibble value, as emitted by `hex::encode`. -/
def hexCharOfNat (n : Nat) : Char :=
  if n < 10 then Char.ofNat (48 + n) else Char.ofNat (87 + n)

/-! ## Hex codec (models the external `hex` crate: `decode`, `encode`) -/

/-- Model of `hex::decode` on the character list of the input string: consumes
two hex digits per byte, fails on an odd-length input or a non-hex character. -/
def hexDecode : List Char → Option (List Nat)
  | [] => some []
  | [_] => none
  | c1 :: c2 :: rest =>
    match hexVal c1, hexVal c2, hexDecode rest with
    | some h, some l, some bs => some ((16 * h + l) :: bs)
    | _, _, _ => none

/-- Model of `hex::encode`: two lowercase hex digits per byte. -/
def hexEncode : List Nat → List Char
  | [] => []
  | b :: rest => hexCharOfNat (b / 16) :: hexCharOfNat (b % 16) :: hexEncode rest

/-! ## SHA-256 (models the external `sha2::Sha256` digest collaborator).
Bytes are `Nat < 256`, words are `Nat < 2^32` with explicit reductions. -/

/-- Right rotation of a 32-bit word. -/
def rotr32 (n x : Nat) : Nat :=
  ((x >>> n) ||| (x <<< (32 - n))) % 2 ^ 32

def sha256BigSigma0 (x : Nat) : Nat := rotr32 2 x ^^^ rotr32 13 x ^^^ rotr32 22 x

def sha256BigSigma1 (x : Nat) : Nat := rotr32 6 x ^^^ rotr32 11 x ^^^ rotr32 25 x

def sha256SmallSigma0 (x : Nat) : Nat := rotr32 7 x ^^^ rotr32 18 x ^^^ (x >>> 3)

def sha256SmallSigma1 (x : Nat) : Nat := rotr32 17 x ^^^ rotr32 19 x ^^^ (x >>> 10)

def sha256Ch (x y z : Nat) : Nat := (x &&& y) ^^^ ((x ^^^ 4294967295) &&& z)

def sha256Maj (x y z : Nat) : Nat := (x &&& y) ^^^ (x &&& z) ^^^ (y &&& z)

/-- The 64 SHA-256 round constants, written in decimal. -/
def sha256K : List Nat :=
  [1116352408, 1899447441, 3049323471, 3921009573, 961987163,
   1508970993, 2453635748, 2870763221, 3624381080, 310598401,
   607225278, 1426881987, 1925078388, 2162078206, 2614888103,
   3248222580, 3835390401, 4022224774, 264347078, 604807628,
   770255983, 1249150122, 1555081692, 1996064986, 2554220882,
   2821834349, 2952996808, 3210313671, 3336571891, 3584528711,
   113926993, 338241895, 666307205, 773529912, 1294757372,
   1396182291, 1695183700, 1986661051, 2177026350, 2456956037,
   2730485921, 2820302411, 3259730800, 3345764771, 3516065817,
   3600352804, 4094571909, 275423344, 430227734, 506948616,
   659060556, 883997877, 958139571, 1322822218, 1537002063,
   1747873779, 1955562222, 2024104815, 2227730452, 2361852424,
   2428436474, 2756734187, 3204031479, 3329325298]

/-- The SHA-256 initial hash state, written in decimal. -/
def sha256H0 : List Nat :=
  [1779033703, 3144134277, 1013904242, 2773480762, 1359893119,
   2600822924, 528734635, 1541459225]

/-- Group bytes four at a time into big-endian 32-bit words. -/
def wordsOfBytes : List Nat → List Nat
  | b0 :: b1 :: b2 :: b3 :: rest =>
    (((b0 * 256 + b1) * 256 + b2) * 256 + b3) :: wordsOfBytes rest
  | _ => []

/-- Extend the 16 message-schedule words to 64. -/
def sha256ExtendWords (ws : List Nat) : List Nat :=
  (List.range 48).foldl
    (fun acc _ =>
      let n := acc.length
      acc ++ [(acc.getD (n - 16) 0 + sha256SmallSigma0 (acc.getD (n - 15) 0) +
          acc.getD (n - 7) 0 + sha256SmallSigma1 (acc.getD (n - 2) 0)) % 2 ^ 32])
    ws

/-- Run the 64 compression rounds over the paired constants and schedule words. -/
def sha256Rounds (st : Nat × Nat × Nat × Nat × Nat × Nat × Nat × Nat) :
    List (Nat × Nat) → Nat × Nat × Nat × Nat × Nat × Nat × Nat × Nat
  | [] => st
  | (k, w) :: rest =>
    match st with
    | (a, b, c, d, e, f, g, h) =>
      let t1 := (h + sha256BigSigma1 e + sha256Ch e f g + k + w) % 2 ^ 32
      let t2 := (sha256BigSigma0 a + sha256Maj a b c) % 2 ^ 32
      sha256Rounds ((t1 + t2) % 2 ^ 32, a, b, c, (d + t1) % 2 ^ 32, e, f, g) rest

/-- Compress one 64-byte block into the running hash state. -/
def sha256Compress (h : List Nat) (block : List Nat) : List Nat :=
  let ws := sha256ExtendWords (wordsOfBytes block)
  let st := sha256Rounds
    (h.getD 0 0, h.getD 1 0, h.getD 2 0, h.getD 3 0,
     h.getD 4 0, h.getD 5 0, h.getD 6 0, h.getD 7 0) (sha256K.zip ws)
  match st with
  | (a, b, c, d, e, f, g, h8) =>
    [(h.getD 0 0 + a) % 2 ^ 32, (h.getD 1 0 + b) % 2 ^ 32,
     (h.getD 2 0 + c) % 2 ^ 32, (h.getD 3 0 + d) % 2 ^ 32,
     (h.getD 4 0 + e) % 2 ^ 32, (h.getD 5 0 + f) % 2 ^ 32,
     (h.getD 6 0 + g) % 2 ^ 32, (h.getD 7 0 + h8) % 2 ^ 32]

/-- Big-endian byte rendering of `n` on `k` bytes (modulo `2^(8k)`). -/
def beBytes : Nat → Nat → List Nat
  | 0, _ => []
  | k + 1, n => beBytes k (n / 256) ++ [n % 256]

/-- SHA-256 padding: `0x80`, zeros to 56 mod 64, then the 64-bit big-endian bit length. -/
def sha256Pad (msg : List Nat) : List Nat :=
  let L := msg.length
  let z := (64 + 56 - ((L + 1) % 64)) % 64
  msg ++ [0x80] ++ List.replicate z 0 ++ beBytes 8 (8 * L)

/-- Fold the padded message through the compression function 64 bytes at a time. -/
def sha256Chunks (h : List Nat) (block : List Nat) : List Nat → List Nat
  | [] => h
  | b :: rest =>
    let block2 := block ++ [b]
    if block2.length = 64 then sha256Chunks (sha256Compress h block2) [] rest
    else sha256Chunks h block2 rest

/-- Model of the external digest capability `sha256(bytes) -> 32 bytes`. -/
def sha256 (msg : List Nat) : List Nat :=
  ((sha256Chunks sha256H0 [] (sha256Pad msg)).map
    (fun w => [w / 2 ^ 24 % 256, w / 2 ^ 16 % 256, w / 2 ^ 8 % 256, w % 256])).flatten

/-- Model of `primitive_types::U256::from_big_endian`: read the digest bytes as
a big-endian unsigned integer. -/
def natFromBeBytes (bs : List Nat) : Nat :=
  bs.foldl (fun acc b => acc * 256 + b) 0

/-! ## Embedding of `src/crypto/util.rs` -/

/-- Rust `str::replace("0x", "")`: remove every non-overlapping occurrence of
the two-character pattern `0x`, scanning left to right. -/
def replace0x : List Char → List Char
  | [] => []
  | '0' :: 'x' :: rest => replace0x rest
  | c :: rest => c :: replace0x rest

/-- Modelled from the spec: `is_address` lives in `src/util/validation.rs`,
which is not among the sources; per the spec the address grammar is exactly
40 hexadecimal characters. -/
def is_address (s : List Char) : Bool :=
  s.length == 40 && s.all (fun c => isHexDigitChar c)

/-- Modelled from the spec: `is_private_key` lives in `src/util/validation.rs`,
which is not among the sources; per the spec the private-key grammar is a
fixed-length (64) hexadecimal string, case-insensitive in its hex letters,
with or without a `0x` prefix. -/
def is_private_key (s : List Char) : Bool :=
  match s with
  | '0' :: 'x' :: rest => rest.length == 64 && rest.all (fun c => isHexDigitChar c)
  | _ => s.length == 64 && s.all (fun c => isHexDigitChar c)

/-- The error type of `crypto/util.rs` (`crate::Error`), restricted to the
variants this core can produce. -/
inductive Error where
  | IncorrectPrivateKey : Error
  | InvalidAddress : String → Error
  | HexDecodeError : Error
deriving DecidableEq

/-- Embedding of `normalize_private_key`: grammar check, then lowercase and
remove `0x`.  Rust `str::to_lowercase` agrees with per-character ASCII
lowercasing on the ASCII inputs that pass the grammar. -/
def normalize_private_key (private_key : String) : Except Error String :=
  if !(is_private_key private_key.data) then .error .IncorrectPrivateKey
  else .ok (String.mk (replace0x (private_key.data.map asciiToLower)))

/-- The per-character transform inside `to_checksum_address`: keep ASCII
digits; otherwise uppercase the character iff `v AND 2^(255 - 6*i)` is at
least one. -/
def checksumChar (v i : Nat) (c : Char) : Char :=
  if isAsciiDigit c then c
  else if 1 ≤ (v &&& 2 ^ (255 - 6 * i)) then asciiToUpper c else asciiToLower c

/-- The `chars().enumerate().map(..)` of `to_checksum_address`, embedded as an
index-carrying recursion. -/
def checksumMap (v : Nat) (i : Nat) : List Char → List Char
  | [] => []
  | c :: rest => checksumChar v i c :: checksumMap v (i + 1) rest

/-- Embedding of `to_checksum_address`: remove `0x`, validate the address
grammar, hash the hex-decoded bytes, and case-map each character from the
digest read as a big-endian 256-bit integer; prefix the result with `0x`. -/
def to_checksum_address (address : String) : Except Error String :=
  let addr := replace0x address.data
  if !(is_address addr) then .error (.InvalidAddress (String.mk addr))
  else
    match hexDecode addr with
    | none => .error .HexDecodeError
    | some bytes =>
      let v := natFromBeBytes (sha256 bytes)
      .ok (String.mk ('0' :: 'x' :: checksumMap v 0 addr))

/-- Embedding of `is_valid_checksum_address`: recompute the checksum and
compare it to the input string, propagating any checksum error. -/
def is_valid_checksum_address (address : String) : Except Error Bool :=
  match to_checksum_address address with
  | .error e => .error e
  | .ok r => .ok (r == address)

/-- Embedding of `get_address_from_public_key`: lowercase the public-key hex,
remove `0x`, hex-decode it, hash it, and pass characters 24 and onward of the
64-character digest hex (the last 20 bytes) to `to_checksum_address`. -/
def get_address_from_public_key (public_key : String) : Except Error String :=
  let normalized := replace0x (public_key.data.map asciiToLower)
  match hexDecode normalized with
  | none => .error .HexDecodeError
  | some bytes =>
    to_checksum_address (String.mk ((hexEncode (sha256 bytes)).drop 24))

/-- Whether an `Except` value is a success. -/
def isOkE {ε α : Type} : Except ε α → Bool
  | .ok _ => true
  | .error _ => false

/-! ## Definitions following the wording of the specification, used to compare
the specified behaviour with the code where the two differ. -/

/-- The prefix-stripping described by the spec: remove one leading `0x` and
nothing else. -/
def strip0xPrefix : List Char → List Char
  | '0' :: 'x' :: rest => rest
  | s => s

/-- Address derivation exactly as the claim words it: lowercase and strip the
prefix, hex-decode, hash, take the last 16 bytes (32 hex characters) of the
digest hex, and pass that 32-character string to `to_checksum_address`. -/
def deriveAddress_specClaimed (public_key : String) : Except Error String :=
  let normalized := strip0xPrefix (public_key.data.map asciiToLower)
  match hexDecode normalized with
  | none => .error .HexDecodeError
  | some bytes =>
    to_checksum_address (String.mk ((hexEncode (sha256 bytes)).drop 32))

/-- Address derivation as the claim reads after amendment: the same pipeline,
but taking the last 20 bytes (40 hex characters) of the digest hex. -/
def deriveAddress_specAmended (public_key : String) : Except Error String :=
  let normalized := strip0xPrefix (public_key.data.map asciiToLower)
  match hexDecode normalized with
  | none => .error .HexDecodeError
  | some bytes =>
    to_checksum_address (String.mk ((hexEncode (sha256 bytes)).drop 24))

/-- Case-tolerant prefix stripping used by the public-key grammar model:
remove one leading `0x` or `0X`. -/
def strip0xPrefixCI : List Char → List Char
  | '0' :: 'x' :: rest => rest
  | '0' :: 'X' :: rest => rest
  | s => s

/-- Modelled from the spec: a well-formed compressed public key hex string is
66 hexadecimal characters whose leading byte is `02` or `03`, with or without
a `0x` prefix (either case of `x`, since the code lowercases first). -/
def is_pub_key (s : List Char) : Bool :=
  let body := strip0xPrefixCI s
  body.length == 66 && body.all (fun c => isHexDigitChar c) &&
    (match body with
     | '0' :: '2' :: _ => true
     | '0' :: '3' :: _ => true
     | _ => false)

/-! ## Embedding of `src/signers/wallet.rs`

The wallet's collaborators that live outside the sources are modelled
explicitly: the RPC provider is a function from an address to a
`BalanceResponse` (or a transport error), and an account's signing capability
is a function carried in the `Account` value. -/

/-- Modelled from the spec: the `Transaction` type of the signers module is
not among the sources; per the spec it carries an optional signer public key
and an unsigned 64-bit nonce whose default value `0` means "unset".  The
remaining fields play no role in the wallet logic. -/
structure Transaction where
  pub_key : Option String
  nonce : Nat
deriving DecidableEq

/-- Modelled from the spec: the `AccountError` type of the signers module is
not among the sources; per the spec's error taxonomy it covers the wallet
lookup and resolution failures, wraps the crypto errors (the `?` conversion
on `get_address_from_public_key`), and propagates transport errors. -/
inductive AccountError where
  | AccountDoesNotExist : String → AccountError
  | NeitherPubKeyNorDefaultAccountProvided : AccountError
  | CryptoError : Error → AccountError
  | TransportError : AccountError
deriving DecidableEq

/-- Modelled from the spec: the `Account` type of the signers module is not
among the sources; per the spec it owns a private key, its derived public key
and checksummed address, and an external signing capability, modelled as a
function field. -/
structure Account where
  private_key : String
  public_key : String
  address : String
  sign : Transaction → Transaction

/-- The `GetBalance` RPC response: a balance and the account's current nonce. -/
structure BalanceResponse where
  balance : Nat
  nonce : Nat
deriving DecidableEq

/-- The wallet state of `wallet.rs`: an optional default account, the RPC
provider collaborator, and the accounts `HashMap` modelled as an association
list with `HashMap` get/insert/remove semantics. -/
structure Wallet where
  default_account : Option Account
  provider : String → Except AccountError BalanceResponse
  accounts : List (String × Account)

/-- `HashMap::get`: the value stored at a key. -/
def mapGet (k : String) (m : List (String × Account)) : Option Account :=
  (m.find? (fun p => p.1 == k)).map (fun p => p.2)

/-- `HashMap::insert`: store a value at a key, overwriting any prior entry. -/
def mapInsert (k : String) (a : Account) (m : List (String × Account)) :
    List (String × Account) :=
  (k, a) :: m.filter (fun p => !(p.1 == k))

/-- `HashMap::remove`: drop the entry at a key. -/
def mapRemove (k : String) (m : List (String × Account)) :
    List (String × Account) :=
  m.filter (fun p => !(p.1 == k))

/-- Embedding of `Wallet::new`: no accounts, no default. -/
def Wallet.new (provider : String → Except AccountError BalanceResponse) : Wallet :=
  { default_account := none, provider := provider, accounts := [] }

/-- Embedding of `Wallet::new_with_accounts`: the first listed account (if
any) becomes default, and the accounts are collected into the map keyed by
their addresses, later entries overwriting earlier ones. -/
def Wallet.new_with_accounts (accounts : List Account)
    (provider : String → Except AccountError BalanceResponse) : Wallet :=
  { default_account := accounts.head?,
    provider := provider,
    accounts := accounts.foldl (fun m a => mapInsert a.address a m) [] }

/-- Modelled from the spec: `Account::new` of the signers module is not among
the sources; per the spec it builds an account from a raw private key by
normalizing it, deriving the public key through the external elliptic-curve
capability `ec`, and deriving the checksummed address, propagating every
error.  The signing capability `sign` is the external signer collaborator. -/
def Account.new (ec : String → Except Error String)
    (sign : Transaction → Transaction) (private_key : String) :
    Except AccountError Account :=
  match normalize_private_key private_key with
  | .error e => .error (.CryptoError e)
  | .ok npk =>
    match ec npk with
    | .error e => .error (.CryptoError e)
    | .ok pub =>
      match get_address_from_public_key pub with
      | .error e => .error (.CryptoError e)
      | .ok address =>
        .ok { private_key := npk, public_key := pub, address := address, sign := sign }

/-- Embedding of `Wallet::add_by_private_key` (and thereby of `Wallet::create`,
which feeds it a freshly generated key): build the account, promote it to
default only when no default is set, insert it at its derived address, and
return the new wallet state with the address. -/
def Wallet.add_by_private_key (ec : String → Except Error String)
    (sign : Transaction → Transaction) (w : Wallet) (private_key : String) :
    Except AccountError (Wallet × String) :=
  match Account.new ec sign private_key with
  | .error e => .error e
  | .ok account =>
    let address := account.address
    let w1 := if w.default_account.isNone
      then { w with default_account := some account } else w
    .ok ({ w1 with accounts := mapInsert account.address account w1.accounts }, address)

/-- Embedding of `Wallet::remove`: clear the default when its address is the
removed one, and drop and return the entry at the address. -/
def Wallet.remove (w : Wallet) (address : String) : Wallet × Option Account :=
  let d := match w.default_account with
    | some account => if account.address == address then none else some account
    | none => none
  ({ w with default_account := d, accounts := mapRemove address w.accounts },
    mapGet address w.accounts)

/-- Embedding of `Wallet::set_default`: fail when the address is not a key of
the accounts map, otherwise make the stored account the default. -/
def Wallet.set_default (w : Wallet) (address : String) : Except AccountError Wallet :=
  match mapGet address w.accounts with
  | none => .error (.AccountDoesNotExist address)
  | some account => .ok { w with default_account := some account }

/-- Embedding of `Wallet::default_account`: read-only accessor. -/
def Wallet.defaultAccount (w : Wallet) : Option Account :=
  w.default_account

/-- Embedding of `Wallet::nonce`: ask the provider for the account's balance
response and return its nonce field, propagating provider errors. -/
def Wallet.nonce (w : Wallet) (account : Account) : Except AccountError Nat :=
  match w.provider account.address with
  | .error e => .error e
  | .ok response => .ok response.nonce

/-- The signing-account resolution of `Wallet::sign_transaction`: a carried
public key has its address derived and looked up (a miss is
`AccountDoesNotExist`), otherwise the default account is used, otherwise
`NeitherPubKeyNorDefaultAccountProvided`. -/
def Wallet.resolve_signer (w : Wallet) (tx : Transaction) :
    Except AccountError Account :=
  match tx.pub_key with
  | some pub_key =>
    match get_address_from_public_key pub_key with
    | .error e => .error (.CryptoError e)
    | .ok address =>
      match mapGet address w.accounts with
      | none => .error (.AccountDoesNotExist address)
      | some account => .ok account
  | none =>
    match w.default_account with
    | some account => .ok account
    | none => .error .NeitherPubKeyNorDefaultAccountProvided

/-- The tail of `Wallet::sign_transaction` once the signer is resolved: when
the nonce is the sentinel `0`, fetch the account's nonce and use its successor,
then delegate to the account's signing capability. -/
def Wallet.sign_with (w : Wallet) (account : Account) (tx : Transaction) :
    Except AccountError Transaction :=
  if tx.nonce = 0 then
    match w.nonce account with
    | .error e => .error e
    | .ok n => .ok (account.sign { tx with nonce := n + 1 })
  else .ok (account.sign tx)

/-- Embedding of `Wallet::sign_transaction`: resolve the signing account, then
assign the nonce if unset and delegate the signature. -/
def Wallet.sign_transaction (w : Wallet) (tx : Transaction) :
    Except AccountError Transaction :=
  match w.resolve_signer tx with
  | .error e => .error e
  | .ok account => w.sign_with account tx

/-- The wallet states reachable through the public constructors and mutators.
`Wallet::create` draws a random key and behaves as `add_by_private_key`, so it
is covered by the `add_by_private_key` rule quantified over the raw key. -/
inductive Wallet.Reachable : Wallet → Prop where
  | new : ∀ provider, Wallet.Reachable (Wallet.new provider)
  | new_with_accounts : ∀ accounts provider,
      Wallet.Reachable (Wallet.new_with_accounts accounts provider)
  | add_by_private_key : ∀ w ec sign k w2 addr, Wallet.Reachable w →
      Wallet.add_by_private_key ec sign w k = .ok (w2, addr) → Wallet.Reachable w2
  | remove : ∀ w addr, Wallet.Reachable w →
      Wallet.Reachable (Wallet.remove w addr).1
  | set_default : ∀ w addr w2, Wallet.Reachable w →
      Wallet.set_default w addr = .ok w2 → Wallet.Reachable w2

/-- The default-account invariant: a set default account is stored in the
accounts map under its own address. -/
def WalletInv (w : Wallet) : Prop :=
  ∀ a, w.default_account = some a → (mapGet a.address w.accounts).isSome = true

/-- Auxiliary map invariant: every entry is keyed by its account's address. -/
def MapCoherent (w : Wallet) : Prop :=
  ∀ k a, (k, a) ∈ w.accounts → a.address = k

/-! ## Character-level lemmas -/

lemma char_eq_of_toNat_eq {c d : Char} (h : c.toNat = d.toNat) : c = d := by
  apply Char.eq_of_val_eq
  have h2 : c.val.toNat = d.val.toNat := h
  exact UInt32.toNat.inj h2

lemma char_toNat_ofNat {n : Nat} (h : n < 55296) : (Char.ofNat n).toNat = n := by
  unfold Char.ofNat
  rw [dif_pos (Or.inl h)]
  rfl

lemma isAsciiDigit_iff {c : Char} :
    isAsciiDigit c = true ↔ 48 ≤ c.toNat ∧ c.toNat ≤ 57 := by
  simp [isAsciiDigit]

lemma isHexDigitChar_iff {c : Char} :
    isHexDigitChar c = true ↔
      (48 ≤ c.toNat ∧ c.toNat ≤ 57) ∨ (97 ≤ c.toNat ∧ c.toNat ≤ 102) ∨
        (65 ≤ c.toNat ∧ c.toNat ≤ 70) := by
  simp [isHexDigitChar]
  tauto

lemma asciiToUpper_toNat_of {c : Char} (h1 : 97 ≤ c.toNat) (h2 : c.toNat ≤ 122) :
    (asciiToUpper c).toNat = c.toNat - 32 := by
  unfold asciiToUpper
  rw [if_pos (by simp; omega)]
  exact char_toNat_ofNat (by omega)

lemma asciiToUpper_eq_of_not {c : Char} (h : ¬(97 ≤ c.toNat ∧ c.toNat ≤ 122)) :
    asciiToUpper c = c := by
  unfold asciiToUpper
  rw [if_neg (by simp; omega)]

lemma asciiToLower_toNat_of {c : Char} (h1 : 65 ≤ c.toNat) (h2 : c.toNat ≤ 90) :
    (asciiToLower c).toNat = c.toNat + 32 := by
  unfold asciiToLower
  rw [if_pos (by simp; omega)]
  exact char_toNat_ofNat (by omega)

lemma asciiToLower_eq_of_not {c : Char} (h : ¬(65 ≤ c.toNat ∧ c.toNat ≤ 90)) :
    asciiToLower c = c := by
  unfold asciiToLower
  rw [if_neg (by simp; omega)]

lemma asciiToLower_asciiToLower (c : Char) :
    asciiToLower (asciiToLower c) = asciiToLower c := by
  by_cases h : 65 ≤ c.toNat ∧ c.toNat ≤ 90
  · have ht := asciiToLower_toNat_of h.1 h.2
    exact asciiToLower_eq_of_not (by omega)
  · rw [asciiToLower_eq_of_not h, asciiToLower_eq_of_not h]

lemma hex_ne_x {c : Char} (h : isHexDigitChar c = true) : c ≠ 'x' := by
  intro heq
  subst heq
  revert h
  decide

lemma hex_asciiToLower_hex {c : Char} (h : isHexDigitChar c = true) :
    isHexDigitChar (asciiToLower c) = true := by
  rw [isHexDigitChar_iff] at h ⊢
  rcases h with h | h | h
  · rw [asciiToLower_eq_of_not (by omega)]; omega
  · rw [asciiToLower_eq_of_not (by omega)]; omega
  · rw [asciiToLower_toNat_of h.1 (by omega)]; omega

lemma hex_asciiToLower_ne_x {c : Char} (h : isHexDigitChar c = true) :
    asciiToLower c ≠ 'x' :=
  hex_ne_x (hex_asciiToLower_hex h)

lemma hex_checksumChar_hex {v i : Nat} {c : Char} (h : isHexDigitChar c = true) :
    isHexDigitChar (checksumChar v i c) = true := by
  unfold checksumChar
  rw [isHexDigitChar_iff] at h
  by_cases hd : isAsciiDigit c = true
  · simpa [hd] using isHexDigitChar_iff.mpr h
  · rw [if_neg hd]
    rw [isAsciiDigit_iff] at hd
    rw [isHexDigitChar_iff]
    rcases h with h | h | h
    · omega
    · by_cases hb : 1 ≤ (v &&& 2 ^ (255 - 6 * i))
      · rw [if_pos hb, asciiToUpper_toNat_of (by omega) (by omega)]; omega
      · rw [if_neg hb, asciiToLower_eq_of_not (by omega)]; omega
    · by_cases hb : 1 ≤ (v &&& 2 ^ (255 - 6 * i))
      · rw [if_pos hb, asciiToUpper_eq_of_not (by omega)]; omega
      · rw [if_neg hb, asciiToLower_toNat_of (by omega) (by omega)]; omega

lemma hexVal_toNat (c : Char) :
    hexVal c =
      (if 48 ≤ c.toNat ∧ c.toNat ≤ 57 then some (c.toNat - 48)
       else if 97 ≤ c.toNat ∧ c.toNat ≤ 102 then some (c.toNat - 87)
       else if 65 ≤ c.toNat ∧ c.toNat ≤ 70 then some (c.toNat - 55)
       else none) := by
  unfold hexVal
  by_cases h1 : 48 ≤ c.toNat ∧ c.toNat ≤ 57
  · rw [if_pos (by simp; omega), if_pos h1]
  · rw [if_neg (by simp; omega), if_neg h1]
    by_cases h2 : 97 ≤ c.toNat ∧ c.toNat ≤ 102
    · rw [if_pos (by simp; omega), if_pos h2]
    · rw [if_neg (by simp; omega), if_neg h2]
      by_cases h3 : 65 ≤ c.toNat ∧ c.toNat ≤ 70
      · rw [if_pos (by simp; omega), if_pos h3]
      · rw [if_neg (by simp; omega), if_neg h3]

lemma hexVal_checksumChar {v i : Nat} {c : Char} (h : isHexDigitChar c = true) :
    hexVal (checksumChar v i c) = hexVal c := by
  unfold checksumChar
  rw [isHexDigitChar_iff] at h
  by_cases hd : isAsciiDigit c = true
  · rw [if_pos hd]
  · rw [if_neg hd]
    rw [isAsciiDigit_iff] at hd
    rcases h with h | h | h
    · omega
    · by_cases hb : 1 ≤ (v &&& 2 ^ (255 - 6 * i))
      · rw [if_pos hb, hexVal_toNat, hexVal_toNat,
          asciiToUpper_toNat_of (by omega) (by omega)]
        rw [if_neg (by omega), if_neg (by omega), if_pos (by omega),
          if_neg (by omega), if_pos (by omega)]
        exact congrArg some (by omega)
      · rw [if_neg hb, asciiToLower_eq_of_not (by omega)]
    · by_cases hb : 1 ≤ (v &&& 2 ^ (255 - 6 * i))
      · rw [if_pos hb, asciiToUpper_eq_of_not (by omega)]
      · rw [if_neg hb, hexVal_toNat, hexVal_toNat,
          asciiToLower_toNat_of (by omega) (by omega)]
        rw [if_neg (by omega), if_pos (by omega), if_neg (by omega),
          if_neg (by omega), if_pos (by omega)]
        exact congrArg some (by omega)

lemma checksumChar_idem {v i : Nat} {c : Char} (h : isHexDigitChar c = true) :
    checksumChar v i (checksumChar v i c) = checksumChar v i c := by
  rw [isHexDigitChar_iff] at h
  by_cases hd : isAsciiDigit c = true
  · unfold checksumChar
    rw [if_pos hd, if_pos hd]
  · rcases h with h | h | h
    · rw [isAsciiDigit_iff] at hd; omega
    · unfold checksumChar
      rw [if_neg hd]
      by_cases hb : 1 ≤ (v &&& 2 ^ (255 - 6 * i))
      · rw [if_pos hb]
        have ht := asciiToUpper_toNat_of (c := c) (by omega) (by omega)
        rw [if_neg (by rw [isAsciiDigit_iff]; omega), if_pos hb,
          asciiToUpper_eq_of_not (by omega)]
      · rw [if_neg hb]
        have hl := asciiToLower_eq_of_not (c := c) (by omega)
        rw [hl, if_neg hd, if_neg hb, hl]
    · unfold checksumChar
      rw [if_neg hd]
      by_cases hb : 1 ≤ (v &&& 2 ^ (255 - 6 * i))
      · rw [if_pos hb]
        have hu := asciiToUpper_eq_of_not (c := c) (by omega)
        rw [hu, if_neg hd, if_pos hb, hu]
      · rw [if_neg hb]
        have ht := asciiToLower_toNat_of (c := c) (by omega) (by omega)
        rw [if_neg (by rw [isAsciiDigit_iff]; omega), if_neg hb,
          asciiToLower_eq_of_not (by omega)]

lemma one_le_and_two_pow_iff {v k : Nat} :
    1 ≤ (v &&& 2 ^ k) ↔ v.testBit k = true := by
  rw [Nat.and_two_pow]
  cases hb : v.testBit k
  · simp
  · simp [Nat.one_le_two_pow]

lemma hexVal_asciiToLower {c : Char} (h : isHexDigitChar c = true) :
    hexVal (asciiToLower c) = hexVal c := by
  rw [isHexDigitChar_iff] at h
  rcases h with h | h | h
  · rw [asciiToLower_eq_of_not (by omega)]
  · rw [asciiToLower_eq_of_not (by omega)]
  · rw [hexVal_toNat, hexVal_toNat, asciiToLower_toNat_of (by omega) (by omega)]
    rw [if_neg (by omega), if_pos (by omega), if_neg (by omega),
      if_neg (by omega), if_pos (by omega)]
    exact congrArg some (by omega)

lemma checksumChar_asciiToLower {v i : Nat} {c : Char}
    (h : isHexDigitChar c = true) :
    checksumChar v i (asciiToLower c) = checksumChar v i c := by
  rw [isHexDigitChar_iff] at h
  rcases h with h | h | h
  · rw [asciiToLower_eq_of_not (by omega)]
  · rw [asciiToLower_eq_of_not (by omega)]
  · have ht := asciiToLower_toNat_of (c := c) (by omega) (by omega)
    unfold checksumChar
    have hd1 : ¬(isAsciiDigit (asciiToLower c) = true) := by
      rw [isAsciiDigit_iff]; omega
    have hd2 : ¬(isAsciiDigit c = true) := by
      rw [isAsciiDigit_iff]; omega
    rw [if_neg hd1, if_neg hd2]
    by_cases hb : 1 ≤ (v &&& 2 ^ (255 - 6 * i))
    · rw [if_pos hb, if_pos hb]
      apply char_eq_of_toNat_eq
      rw [asciiToUpper_toNat_of (by omega) (by omega),
        asciiToUpper_eq_of_not (by omega)]
      omega
    · rw [if_neg hb, if_neg hb, asciiToLower_asciiToLower]

lemma asciiToLower_eq_zero_iff {c : Char} : asciiToLower c = '0' ↔ c = '0' := by
  constructor
  · intro h
    by_cases hr : 65 ≤ c.toNat ∧ c.toNat ≤ 90
    · exfalso
      have ht := asciiToLower_toNat_of hr.1 hr.2
      rw [h] at ht
      have h48 : Char.toNat '0' = 48 := rfl
      omega
    · rwa [asciiToLower_eq_of_not hr] at h
  · intro h
    subst h
    decide

lemma asciiToLower_eq_x_iff {c : Char} :
    asciiToLower c = 'x' ↔ c = 'x' ∨ c = 'X' := by
  constructor
  · intro h
    by_cases hr : 65 ≤ c.toNat ∧ c.toNat ≤ 90
    · have ht := asciiToLower_toNat_of hr.1 hr.2
      rw [h] at ht
      right
      apply char_eq_of_toNat_eq
      have hx : Char.toNat 'x' = 120 := rfl
      have hX : Char.toNat 'X' = 88 := rfl
      omega
    · left
      rwa [asciiToLower_eq_of_not hr] at h
  · rintro (h | h) <;> subst h <;> decide

/-! ## List-level lemmas -/

/-- Two-at-a-time induction on lists, matching the byte pairing of the hex
codec. -/
theorem twoStepInduction {α : Type} {P : List α → Prop} (nil : P [])
    (single : ∀ a, P [a]) (cons2 : ∀ a b l, P l → P (a :: b :: l)) :
    ∀ l, P l
  | [] => nil
  | [a] => single a
  | a :: b :: l => cons2 a b l (twoStepInduction nil single cons2 l)

lemma replace0x_cons_of_ne (c : Char) (rest : List Char)
    (h : ¬(c = '0' ∧ rest.head? = some 'x')) :
    replace0x (c :: rest) = c :: replace0x rest :=
  replace0x.eq_3 c rest (fun r1 hc hr => h ⟨hc, by rw [hr]; rfl⟩)

lemma replace0x_of_no_x {l : List Char} (h : ∀ c ∈ l, c ≠ 'x') :
    replace0x l = l := by
  induction l with
  | nil => rfl
  | cons c rest ih =>
    rw [replace0x_cons_of_ne c rest ?side]
    · rw [ih (fun d hd => h d (List.mem_cons_of_mem _ hd))]
    case side =>
      rintro ⟨rfl, hh⟩
      rcases rest with _ | ⟨c2, r⟩
      · simp at hh
      · simp at hh
        exact h c2 (by simp) hh

lemma is_address_iff {s : List Char} :
    is_address s = true ↔ s.length = 40 ∧ ∀ c ∈ s, isHexDigitChar c = true := by
  simp [is_address]

lemma hexDecode_isSome {s : List Char} (he : s.length % 2 = 0)
    (hh : ∀ c ∈ s, isHexDigitChar c = true) : (hexDecode s).isSome = true := by
  induction s using twoStepInduction with
  | nil => rfl
  | single a => simp at he
  | cons2 a b l ih =>
    have ha : (hexVal a).isSome = true := by
      have := hh a (by simp)
      rw [isHexDigitChar_iff] at this
      rw [hexVal_toNat]
      rcases this with h | h | h
      · rw [if_pos (by omega)]; rfl
      · rw [if_neg (by omega), if_pos (by omega)]; rfl
      · rw [if_neg (by omega), if_neg (by omega), if_pos (by omega)]; rfl
    have hb : (hexVal b).isSome = true := by
      have := hh b (by simp)
      rw [isHexDigitChar_iff] at this
      rw [hexVal_toNat]
      rcases this with h | h | h
      · rw [if_pos (by omega)]; rfl
      · rw [if_neg (by omega), if_pos (by omega)]; rfl
      · rw [if_neg (by omega), if_neg (by omega), if_pos (by omega)]; rfl
    have hl : (hexDecode l).isSome = true := by
      apply ih
      · simp only [List.length_cons] at he
        omega
      · exact fun c hc => hh c (by simp [hc])
    rw [Option.isSome_iff_exists] at ha hb hl
    obtain ⟨x, hx⟩ := ha
    obtain ⟨y, hy⟩ := hb
    obtain ⟨z, hz⟩ := hl
    simp [hexDecode, hx, hy, hz]

lemma checksumMap_length (v : Nat) : ∀ (s : List Char) (i : Nat),
    (checksumMap v i s).length = s.length
  | [], _ => rfl
  | _ :: rest, i => by
    simp [checksumMap, checksumMap_length v rest (i + 1)]

lemma checksumMap_getD (v : Nat) : ∀ (s : List Char) (i j : Nat),
    j < s.length →
    (checksumMap v i s).getD j ' ' = checksumChar v (i + j) (s.getD j ' ')
  | [], _, _, h => by simp at h
  | c :: rest, i, 0, _ => by simp [checksumMap]
  | c :: rest, i, j + 1, h => by
    have := checksumMap_getD v rest (i + 1) j (by simpa using h)
    simpa [checksumMap, Nat.add_assoc, Nat.add_comm 1 j] using this

lemma checksumMap_allHex {v i : Nat} {s : List Char}
    (h : ∀ c ∈ s, isHexDigitChar c = true) :
    ∀ c ∈ checksumMap v i s, isHexDigitChar c = true := by
  induction s generalizing i with
  | nil => simp [checksumMap]
  | cons c rest ih =>
    intro d hd
    rcases hd with hd | hd
    case head => exact hex_checksumChar_hex (h c (by simp))
    case tail hd =>
      exact ih (i := i + 1) (fun e he => h e (by simp [he])) d hd

lemma checksumMap_idem {v i : Nat} {s : List Char}
    (h : ∀ c ∈ s, isHexDigitChar c = true) :
    checksumMap v i (checksumMap v i s) = checksumMap v i s := by
  induction s generalizing i with
  | nil => rfl
  | cons c rest ih =>
    simp only [checksumMap]
    rw [checksumChar_idem (h c (by simp)),
      ih (i := i + 1) (fun e he => h e (by simp [he]))]

lemma hexDecode_checksumMap {v : Nat} {s : List Char}
    (h : ∀ c ∈ s, isHexDigitChar c = true) :
    ∀ i, hexDecode (checksumMap v i s) = hexDecode s := by
  induction s using twoStepInduction with
  | nil => intro i; rfl
  | single a => intro i; rfl
  | cons2 a b l ih =>
    intro i
    simp only [checksumMap, hexDecode]
    rw [hexVal_checksumChar (h a (by simp)), hexVal_checksumChar (h b (by simp)),
      ih (fun e he => h e (by simp [he])) (i + 2)]

lemma hexDecode_congr_lower {s t : List Char}
    (hmap : s.map asciiToLower = t.map asciiToLower)
    (hs : ∀ c ∈ s, isHexDigitChar c = true)
    (ht : ∀ c ∈ t, isHexDigitChar c = true) :
    hexDecode s = hexDecode t := by
  induction s using twoStepInduction generalizing t with
  | nil =>
    rw [List.map_eq_nil_iff.mp hmap.symm]
  | single a =>
    rcases t with _ | ⟨d, _ | ⟨d2, t2⟩⟩
    · simp at hmap
    · rfl
    · simp at hmap
  | cons2 a b l ih =>
    rcases t with _ | ⟨d, _ | ⟨d2, t2⟩⟩
    · simp at hmap
    · simp at hmap
    · simp only [List.map_cons, List.cons.injEq] at hmap
      obtain ⟨h1, h2, h3⟩ := hmap
      simp only [hexDecode]
      rw [show hexVal a = hexVal d by
            rw [← hexVal_asciiToLower (hs a (by simp)), h1,
              hexVal_asciiToLower (ht d (by simp))],
          show hexVal b = hexVal d2 by
            rw [← hexVal_asciiToLower (hs b (by simp)), h2,
              hexVal_asciiToLower (ht d2 (by simp))],
          ih h3 (fun e he => hs e (by simp [he]))
            (fun e he => ht e (by simp [he]))]

lemma checksumMap_congr_lower {s t : List Char}
    (hmap : s.map asciiToLower = t.map asciiToLower)
    (hs : ∀ c ∈ s, isHexDigitChar c = true)
    (ht : ∀ c ∈ t, isHexDigitChar c = true) :
    ∀ v i, checksumMap v i s = checksumMap v i t := by
  induction s generalizing t with
  | nil =>
    rw [List.map_eq_nil_iff.mp hmap.symm]
    intro v i
    rfl
  | cons a l ih =>
    rcases t with _ | ⟨d, t2⟩
    · simp at hmap
    · simp only [List.map_cons, List.cons.injEq] at hmap
      obtain ⟨h1, h2⟩ := hmap
      intro v i
      simp only [checksumMap]
      rw [show checksumChar v i a = checksumChar v i d by
            rw [← checksumChar_asciiToLower (hs a (by simp)), h1,
              checksumChar_asciiToLower (ht d (by simp))],
          ih h2 (fun e he => hs e (by simp [he]))
            (fun e he => ht e (by simp [he])) v (i + 1)]

lemma replace0x_map_lower :
    ∀ (n : Nat) (la lb : List Char), la.length ≤ n →
      la.map asciiToLower = lb.map asciiToLower →
      (∀ c ∈ replace0x la, isHexDigitChar c = true) →
      (∀ c ∈ replace0x lb, isHexDigitChar c = true) →
      (replace0x la).map asciiToLower = (replace0x lb).map asciiToLower := by
  intro n
  induction n with
  | zero =>
    intro la lb hn hmap _ _
    have hla : la = [] := List.length_eq_zero.mp (by omega)
    subst hla
    rw [List.map_eq_nil_iff.mp hmap.symm]
  | succ n ih =>
    intro la lb hn hmap ha hb
    rcases la with _ | ⟨c, la2⟩
    · rw [List.map_eq_nil_iff.mp hmap.symm]
    · rcases lb with _ | ⟨d, lb2⟩
      · simp at hmap
      · simp only [List.map_cons, List.cons.injEq] at hmap
        obtain ⟨h1, h2⟩ := hmap
        by_cases hc0 : c = '0'
        · subst hc0
          have hd0 : d = '0' := by
            rw [← asciiToLower_eq_zero_iff, ← h1]
            decide
          subst hd0
          rcases la2 with _ | ⟨c2, la3⟩
          · rw [List.map_eq_nil_iff.mp h2.symm]
          · rcases lb2 with _ | ⟨d2, lb3⟩
            · simp at h2
            · simp only [List.map_cons, List.cons.injEq] at h2
              obtain ⟨h21, h22⟩ := h2
              by_cases hc2 : c2 = 'x'
              · subst hc2
                have hd2 : d2 = 'x' ∨ d2 = 'X' := by
                  rw [← asciiToLower_eq_x_iff, ← h21]
                  decide
                rcases hd2 with hd2 | hd2
                · subst hd2
                  rw [replace0x.eq_2] at ha ⊢
                  rw [replace0x.eq_2] at hb ⊢
                  have hlen : la3.length ≤ n := by
                    simp only [List.length_cons] at hn
                    omega
                  exact ih la3 lb3 hlen h22 ha hb
                · subst hd2
                  exfalso
                  have hmem : 'X' ∈ replace0x ('0' :: 'X' :: lb3) := by
                    rw [replace0x_cons_of_ne _ _ (by simp),
                      replace0x_cons_of_ne _ _ (by rintro ⟨h, _⟩; revert h; decide)]
                    simp
                  have hfx := hb _ hmem
                  revert hfx
                  decide
              · have hd2 : d2 ≠ 'x' := by
                  intro hdx
                  subst hdx
                  have hcx : c2 = 'x' ∨ c2 = 'X' := by
                    rw [← asciiToLower_eq_x_iff, h21]
                    decide
                  rcases hcx with hcx | hcx
                  · exact hc2 hcx
                  · subst hcx
                    have hmem : 'X' ∈ replace0x ('0' :: 'X' :: la3) := by
                      rw [replace0x_cons_of_ne _ _ (by simp),
                        replace0x_cons_of_ne _ _ (by rintro ⟨h, _⟩; revert h; decide)]
                      simp
                    have hfx := ha _ hmem
                    revert hfx
                    decide
                have eA : replace0x ('0' :: c2 :: la3) = '0' :: replace0x (c2 :: la3) :=
                  replace0x_cons_of_ne _ _ (by
                    rintro ⟨_, hh⟩
                    simp only [List.head?_cons, Option.some.injEq] at hh
                    exact hc2 hh)
                have eB : replace0x ('0' :: d2 :: lb3) = '0' :: replace0x (d2 :: lb3) :=
                  replace0x_cons_of_ne _ _ (by
                    rintro ⟨_, hh⟩
                    simp only [List.head?_cons, Option.some.injEq] at hh
                    exact hd2 hh)
                rw [eA] at ha ⊢
                rw [eB] at hb ⊢
                rw [List.map_cons, List.map_cons]
                have hlen : (c2 :: la3).length ≤ n := by
                  simp only [List.length_cons] at hn ⊢
                  omega
                exact congrArg (List.cons (asciiToLower '0'))
                  (ih (c2 :: la3) (d2 :: lb3) hlen
                    (by simp only [List.map_cons, List.cons.injEq]; exact ⟨h21, h22⟩)
                    (fun e he => ha e (by simp [he]))
                    (fun e he => hb e (by simp [he])))
        · have hd0 : d ≠ '0' := by
            intro hdd
            subst hdd
            exact hc0 (by rw [← asciiToLower_eq_zero_iff, h1]; decide)
          have eA : replace0x (c :: la2) = c :: replace0x la2 :=
            replace0x_cons_of_ne _ _ (by rintro ⟨hh, _⟩; exact hc0 hh)
          have eB : replace0x (d :: lb2) = d :: replace0x lb2 :=
            replace0x_cons_of_ne _ _ (by rintro ⟨hh, _⟩; exact hd0 hh)
          rw [eA] at ha ⊢
          rw [eB] at hb ⊢
          rw [List.map_cons, List.map_cons, h1]
          have hlen : la2.length ≤ n := by
            simp only [List.length_cons] at hn
            omega
          exact congrArg (List.cons (asciiToLower d))
            (ih la2 lb2 hlen h2
              (fun e he => ha e (by simp [he]))
              (fun e he => hb e (by simp [he])))

lemma toChecksum_eq_ok {a : String} {bytes : List Nat}
    (hv : is_address (replace0x a.data) = true)
    (hd : hexDecode (replace0x a.data) = some bytes) :
    to_checksum_address a =
      .ok (String.mk ('0' :: 'x' ::
        checksumMap (natFromBeBytes (sha256 bytes)) 0 (replace0x a.data))) := by
  unfold to_checksum_address
  simp only [hv, hd, Bool.not_true, Bool.false_eq_true, if_false]

lemma toChecksum_ok_inv {a r : String}
    (h : to_checksum_address a = .ok r) :
    is_address (replace0x a.data) = true ∧
      ∃ bytes, hexDecode (replace0x a.data) = some bytes ∧
        r = String.mk ('0' :: 'x' ::
          checksumMap (natFromBeBytes (sha256 bytes)) 0 (replace0x a.data)) := by
  unfold to_checksum_address at h
  by_cases hv : is_address (replace0x a.data) = true
  · refine ⟨hv, ?_⟩
    simp only [hv, Bool.not_true, Bool.false_eq_true, if_false] at h
    cases hd : hexDecode (replace0x a.data) with
    | none =>
      rw [hd] at h
      exact absurd h (by simp)
    | some bytes =>
      rw [hd] at h
      simp only [Except.ok.injEq] at h
      exact ⟨bytes, rfl, h.symm⟩
  · have hv2 : is_address (replace0x a.data) = false := by
      rwa [Bool.not_eq_true] at hv
    simp only [hv2, Bool.not_false, if_true] at h
    exact absurd h (by simp)

/-! ## Claims -/

/-- Claim C1: for every 40-hex-character address string, `to_checksum_address`
leaves decimal-digit characters unchanged and, for each letter character at
0-based index `i`, uppercases it iff bit `255 - 6*i` of the big-endian 256-bit
SHA-256 digest of the hex-decoded address bytes is set; in particular it maps
`11223344556677889900aabbccddeeff11223344` to
`0x11223344556677889900AabbccdDeefF11223344`. -/
theorem claim_C1 :
    (∀ s : List Char, s.length = 40 → (∀ c ∈ s, isHexDigitChar c = true) →
      (hexDecode s).isSome = true ∧
      (∀ r, to_checksum_address (String.mk s) = .ok r →
        r.data.length = 42 ∧
        ∀ i, i < 40 →
          (isAsciiDigit (s.getD i ' ') = true →
            r.data.getD (i + 2) ' ' = s.getD i ' ') ∧
          (isAsciiDigit (s.getD i ' ') = false →
            r.data.getD (i + 2) ' ' =
              (if Nat.testBit
                  (natFromBeBytes (sha256 ((hexDecode s).getD [])))
                  (255 - 6 * i) = true
               then asciiToUpper (s.getD i ' ')
               else asciiToLower (s.getD i ' '))))) ∧
    to_checksum_address "11223344556677889900aabbccddeeff11223344" =
      .ok "0x11223344556677889900AabbccdDeefF11223344" := by
  constructor
  · intro s h40 hhex
    have hrep : replace0x s = s :=
      replace0x_of_no_x (fun c hc => hex_ne_x (hhex c hc))
    have hdata : (String.mk s).data = s := rfl
    have hsome : (hexDecode s).isSome = true :=
      hexDecode_isSome (by omega) hhex
    refine ⟨hsome, ?_⟩
    obtain ⟨bytes, hbytes⟩ := Option.isSome_iff_exists.mp hsome
    have hv : is_address (replace0x (String.mk s).data) = true := by
      rw [hdata, hrep, is_address_iff]
      exact ⟨h40, hhex⟩
    have hdec2 : hexDecode (replace0x (String.mk s).data) = some bytes := by
      rw [hdata, hrep, hbytes]
    have hok := toChecksum_eq_ok hv hdec2
    intro r hr
    rw [hok] at hr
    simp only [Except.ok.injEq] at hr
    subst hr
    rw [hdata, hrep] at *
    constructor
    · simp [checksumMap_length, h40]
    · intro i hi
      have hget : ('0' :: 'x' ::
          checksumMap (natFromBeBytes (sha256 bytes)) 0 s).getD (i + 2) ' ' =
          (checksumMap (natFromBeBytes (sha256 bytes)) 0 s).getD i ' ' := by
        simp [List.getD_cons_succ]
      have hmap := checksumMap_getD (natFromBeBytes (sha256 bytes)) s 0 i (by omega)
      rw [Nat.zero_add] at hmap
      constructor
      · intro hdig
        show ('0' :: 'x' :: _).getD (i + 2) ' ' = _
        rw [hget, hmap]
        unfold checksumChar
        rw [if_pos hdig]
      · intro hdig
        show ('0' :: 'x' :: _).getD (i + 2) ' ' = _
        rw [hget, hmap, hbytes]
        unfold checksumChar
        rw [if_neg (by rw [hdig]; exact Bool.false_ne_true)]
        simp only [Option.getD_some]
        by_cases hb : Nat.testBit (natFromBeBytes (sha256 bytes)) (255 - 6 * i) = true
        · rw [if_pos (one_le_and_two_pow_iff.mpr hb), if_pos hb]
        · rw [if_neg (fun hx => hb (one_le_and_two_pow_iff.mp hx)), if_neg hb]
  · decide

/-- Witness for C1 at the specification known vector. -/
theorem claim_C1_witness :
    (hexDecode (String.data "11223344556677889900aabbccddeeff11223344")).isSome
        = true ∧
      to_checksum_address "11223344556677889900aabbccddeeff11223344" =
        .ok "0x11223344556677889900AabbccdDeefF11223344" :=
  ⟨(claim_C1.1 (String.data "11223344556677889900aabbccddeeff11223344")
      (by decide) (by decide)).1,
    claim_C1.2⟩

/-- Claim C6: for every string passing the 40-hex-character address grammar,
with or without a `0x` prefix, the checksummed output validates: recomputing
its checksum reproduces it byte for byte. -/
theorem claim_C6 :
    ∀ (a : String) (s : List Char), s.length = 40 →
      (∀ c ∈ s, isHexDigitChar c = true) →
      (a = String.mk s ∨ a = String.mk ('0' :: 'x' :: s)) →
      isOkE (to_checksum_address a) = true ∧
      ∀ r, to_checksum_address a = .ok r →
        is_valid_checksum_address r = .ok true := by
  intro a s h40 hhex hform
  have hreps : replace0x s = s :=
    replace0x_of_no_x (fun c hc => hex_ne_x (hhex c hc))
  have hrep : replace0x a.data = s := by
    rcases hform with rfl | rfl
    · exact hreps
    · show replace0x ('0' :: 'x' :: s) = s
      rw [replace0x.eq_2, hreps]
  have hv : is_address (replace0x a.data) = true := by
    rw [hrep, is_address_iff]
    exact ⟨h40, hhex⟩
  have hsome := hexDecode_isSome (s := s) (by omega) hhex
  obtain ⟨bytes, hbytes⟩ := Option.isSome_iff_exists.mp hsome
  have hdec2 : hexDecode (replace0x a.data) = some bytes := by
    rw [hrep]
    exact hbytes
  have hok := toChecksum_eq_ok hv hdec2
  rw [hrep] at hok
  refine ⟨by rw [hok]; rfl, ?_⟩
  intro r hr
  rw [hok] at hr
  simp only [Except.ok.injEq] at hr
  subst hr
  have hmhex : ∀ c ∈ checksumMap (natFromBeBytes (sha256 bytes)) 0 s,
      isHexDigitChar c = true := checksumMap_allHex hhex
  have hmlen : (checksumMap (natFromBeBytes (sha256 bytes)) 0 s).length = 40 := by
    rw [checksumMap_length, h40]
  have hrepm : replace0x (String.mk ('0' :: 'x' ::
      checksumMap (natFromBeBytes (sha256 bytes)) 0 s)).data =
      checksumMap (natFromBeBytes (sha256 bytes)) 0 s := by
    show replace0x ('0' :: 'x' :: _) = _
    rw [replace0x.eq_2]
    exact replace0x_of_no_x (fun c hc => hex_ne_x (hmhex c hc))
  have hvm : is_address (replace0x (String.mk ('0' :: 'x' ::
      checksumMap (natFromBeBytes (sha256 bytes)) 0 s)).data) = true := by
    rw [hrepm, is_address_iff]
    exact ⟨hmlen, hmhex⟩
  have hdm : hexDecode (checksumMap (natFromBeBytes (sha256 bytes)) 0 s) =
      some bytes := by
    rw [hexDecode_checksumMap hhex 0, hbytes]
  have hdm2 : hexDecode (replace0x (String.mk ('0' :: 'x' ::
      checksumMap (natFromBeBytes (sha256 bytes)) 0 s)).data) = some bytes := by
    rw [hrepm]
    exact hdm
  have hok2 := toChecksum_eq_ok hvm hdm2
  rw [hrepm] at hok2
  unfold is_valid_checksum_address
  rw [hok2, checksumMap_idem hhex]
  simp

/-- Witness for C6 at the known vector, entering with the `0x` prefix. -/
theorem claim_C6_witness :
    isOkE (to_checksum_address "0x11223344556677889900aabbccddeeff11223344")
        = true ∧
      is_valid_checksum_address "0x11223344556677889900AabbccdDeefF11223344" =
        .ok true := by
  have h := claim_C6 "0x11223344556677889900aabbccddeeff11223344"
    (String.data "11223344556677889900aabbccddeeff11223344")
    (by decide) (by decide) (Or.inr (by decide))
  exact ⟨h.1, h.2 "0x11223344556677889900AabbccdDeefF11223344" (by decide)⟩

/-- Claim C7 as amended: `to_checksum_address` removes every occurrence of the
substring `0x` (not only a leading prefix) and validates the remainder against
the 40-hex-character grammar, failing with `InvalidAddress` carrying the
post-removal string exactly when that validation fails; inputs whose
post-removal string conforms never produce an error. -/
theorem claim_C7 :
    ∀ a : String,
      (is_address (replace0x a.data) = false →
        to_checksum_address a =
          .error (.InvalidAddress (String.mk (replace0x a.data)))) ∧
      (is_address (replace0x a.data) = true →
        isOkE (to_checksum_address a) = true) := by
  intro a
  constructor
  · intro hv
    unfold to_checksum_address
    simp only [hv, Bool.not_false, if_true]
  · intro hv
    have h := is_address_iff.mp hv
    have hsome := hexDecode_isSome (s := replace0x a.data) (by omega) h.2
    obtain ⟨bytes, hbytes⟩ := Option.isSome_iff_exists.mp hsome
    rw [toChecksum_eq_ok hv hbytes]
    rfl

/-- Counterexample to C7 as stated: the input
`aa0x11223344556677889900aabbccddeeff112233` has no `0x` prefix, so its
remainder after prefix-stripping is itself, which fails the 40-hex grammar;
the claim then demands an `InvalidAddress` failure, yet the code removes the
interior `0x` and succeeds. -/
theorem claim_C7_counterexample :
    is_address (strip0xPrefix
        (String.data "aa0x11223344556677889900aabbccddeeff112233")) = false ∧
      isOkE (to_checksum_address "aa0x11223344556677889900aabbccddeeff112233")
        = true := by
  constructor
  · decide
  · decide

/-- Witness for C7 (amended) on both branches. -/
theorem claim_C7_witness :
    (is_address (replace0x (String.data "zz")) = false ∧
      to_checksum_address "zz" = .error (.InvalidAddress "zz")) ∧
    (is_address (replace0x
        (String.data "11223344556677889900aabbccddeeff11223344")) = true ∧
      isOkE (to_checksum_address "11223344556677889900aabbccddeeff11223344")
        = true) :=
  ⟨⟨by decide, (claim_C7 "zz").1 (by decide)⟩,
    ⟨by decide,
      (claim_C7 "11223344556677889900aabbccddeeff11223344").2 (by decide)⟩⟩

/-- Claim C9: `is_valid_checksum_address` never returns `Ok(true)` on an input
that does not begin with `0x`, because a checksummed string always begins with
`0x` and the comparison is exact. -/
theorem claim_C9 :
    ∀ a : String, a.data.take 2 ≠ ['0', 'x'] →
      is_valid_checksum_address a ≠ .ok true := by
  intro a hpre hcontra
  unfold is_valid_checksum_address at hcontra
  cases hok : to_checksum_address a with
  | error e =>
    rw [hok] at hcontra
    exact absurd hcontra (by simp)
  | ok r =>
    rw [hok] at hcontra
    simp only [Except.ok.injEq] at hcontra
    have hra : r = a := eq_of_beq hcontra
    obtain ⟨hv, bytes, hb, hr⟩ := toChecksum_ok_inv hok
    rw [hra] at hr
    have hdata : a.data = '0' :: 'x' ::
        checksumMap (natFromBeBytes (sha256 bytes)) 0 (replace0x a.data) :=
      congrArg String.data hr
    apply hpre
    rw [hdata]
    rfl

/-- Witness for C9 at a prefixless but correctly cased address. -/
theorem claim_C9_witness :
    (String.data "11223344556677889900AabbccdDeefF11223344").take 2 ≠
        ['0', 'x'] ∧
      is_valid_checksum_address "11223344556677889900AabbccdDeefF11223344" ≠
        .ok true :=
  ⟨by decide, claim_C9 "11223344556677889900AabbccdDeefF11223344" (by decide)⟩

lemma no_x_not_0x_prefixed {l : List Char} (h : ∀ c ∈ l, c ≠ 'x') :
    ∀ rest, l = '0' :: 'x' :: rest → False := by
  rintro rest rfl
  exact h 'x' (by simp) rfl

lemma map_lower_idem (l : List Char) :
    (l.map asciiToLower).map asciiToLower = l.map asciiToLower := by
  rw [List.map_map]
  exact List.map_congr_left (fun c _ => asciiToLower_asciiToLower c)

lemma private_key_shape {s : List Char} (h : is_private_key s = true) :
    (∃ rest, s = '0' :: 'x' :: rest ∧ rest.length = 64 ∧
      ∀ c ∈ rest, isHexDigitChar c = true) ∨
    ((∀ rest, s = '0' :: 'x' :: rest → False) ∧ s.length = 64 ∧
      ∀ c ∈ s, isHexDigitChar c = true) := by
  by_cases hp : ∃ rest, s = '0' :: 'x' :: rest
  · obtain ⟨rest, rfl⟩ := hp
    rw [is_private_key.eq_1] at h
    simp only [Bool.and_eq_true, beq_iff_eq, List.all_eq_true] at h
    exact Or.inl ⟨rest, rfl, h.1, h.2⟩
  · have hnp : ∀ rest, s = '0' :: 'x' :: rest → False :=
      fun rest he => hp ⟨rest, he⟩
    rw [is_private_key.eq_2 s hnp] at h
    simp only [Bool.and_eq_true, beq_iff_eq, List.all_eq_true] at h
    exact Or.inr ⟨hnp, h.1, h.2⟩

lemma normalize_fixed {m : List Char} (hlen : m.length = 64)
    (hhex : ∀ c ∈ m, isHexDigitChar c = true)
    (hlow : m.map asciiToLower = m) :
    normalize_private_key (String.mk m) = .ok (String.mk m) := by
  have hnx : ∀ c ∈ m, c ≠ 'x' := fun c hc => hex_ne_x (hhex c hc)
  have hpk : is_private_key (String.mk m).data = true := by
    show is_private_key m = true
    rw [is_private_key.eq_2 m (no_x_not_0x_prefixed hnx)]
    simp only [Bool.and_eq_true, beq_iff_eq, List.all_eq_true]
    exact ⟨hlen, hhex⟩
  unfold normalize_private_key
  rw [hpk]
  show Except.ok (String.mk (replace0x (m.map asciiToLower))) = _
  rw [hlow, replace0x_of_no_x hnx]

/-- Claim C8: every raw private key accepted by the grammar normalizes to the
lowercase, prefix-stripped hex string, and normalization is idempotent on this
result. -/
theorem claim_C8 :
    ∀ k : String, is_private_key k.data = true →
      normalize_private_key k =
        .ok (String.mk ((strip0xPrefix k.data).map asciiToLower)) ∧
      normalize_private_key
          (String.mk ((strip0xPrefix k.data).map asciiToLower)) =
        .ok (String.mk ((strip0xPrefix k.data).map asciiToLower)) := by
  intro k hk
  rcases private_key_shape hk with ⟨rest, hform, hlen, hhex⟩ | ⟨hnp, hlen, hhex⟩
  · have hstrip : strip0xPrefix k.data = rest := by
      rw [hform, strip0xPrefix.eq_1]
    have hm_hex : ∀ c ∈ rest.map asciiToLower, isHexDigitChar c = true := by
      intro c hc
      obtain ⟨d, hd, rfl⟩ := List.mem_map.mp hc
      exact hex_asciiToLower_hex (hhex d hd)
    have hm_nx : ∀ c ∈ rest.map asciiToLower, c ≠ 'x' :=
      fun c hc => hex_ne_x (hm_hex c hc)
    have hfirst : normalize_private_key k =
        .ok (String.mk (rest.map asciiToLower)) := by
      unfold normalize_private_key
      rw [hk]
      show Except.ok (String.mk (replace0x (k.data.map asciiToLower))) = _
      rw [hform]
      simp only [List.map_cons]
      rw [show asciiToLower '0' = '0' from by decide,
        show asciiToLower 'x' = 'x' from by decide,
        replace0x.eq_2, replace0x_of_no_x hm_nx]
    rw [hstrip]
    refine ⟨hfirst, ?_⟩
    exact normalize_fixed (by rw [List.length_map, hlen]) hm_hex
      (map_lower_idem rest)
  · have hstrip : strip0xPrefix k.data = k.data := strip0xPrefix.eq_2 k.data hnp
    have hm_hex : ∀ c ∈ k.data.map asciiToLower, isHexDigitChar c = true := by
      intro c hc
      obtain ⟨d, hd, rfl⟩ := List.mem_map.mp hc
      exact hex_asciiToLower_hex (hhex d hd)
    have hm_nx : ∀ c ∈ k.data.map asciiToLower, c ≠ 'x' :=
      fun c hc => hex_ne_x (hm_hex c hc)
    have hfirst : normalize_private_key k =
        .ok (String.mk (k.data.map asciiToLower)) := by
      unfold normalize_private_key
      rw [hk]
      show Except.ok (String.mk (replace0x (k.data.map asciiToLower))) = _
      rw [replace0x_of_no_x hm_nx]
    rw [hstrip]
    refine ⟨hfirst, ?_⟩
    exact normalize_fixed (by rw [List.length_map, hlen]) hm_hex
      (map_lower_idem k.data)

/-- Witness for C8 at a mixed-case, prefixed private key. -/
theorem claim_C8_witness :
    is_private_key (String.data
        "0xD96E9eb5b782a80ea153c937fa83e5948485FBFC8b7e7c069d7b914dbc350aba")
        = true ∧
      normalize_private_key
          "0xD96E9eb5b782a80ea153c937fa83e5948485FBFC8b7e7c069d7b914dbc350aba" =
        .ok "d96e9eb5b782a80ea153c937fa83e5948485fbfc8b7e7c069d7b914dbc350aba" ∧
      normalize_private_key
          "d96e9eb5b782a80ea153c937fa83e5948485fbfc8b7e7c069d7b914dbc350aba" =
        .ok "d96e9eb5b782a80ea153c937fa83e5948485fbfc8b7e7c069d7b914dbc350aba" := by
  have h := claim_C8
    "0xD96E9eb5b782a80ea153c937fa83e5948485FBFC8b7e7c069d7b914dbc350aba"
    (by decide)
  exact ⟨by decide, h.1, h.2⟩

/-- Claim C10: `to_checksum_address` is insensitive to the letter case of its
input: two inputs equal up to ASCII case that both pass the grammar check
produce identical outputs. -/
theorem claim_C10 :
    ∀ (a b ra rb : String),
      a.data.map asciiToLower = b.data.map asciiToLower →
      to_checksum_address a = .ok ra → to_checksum_address b = .ok rb →
      ra = rb := by
  intro a b ra rb hmap hoka hokb
  obtain ⟨hva, bytesa, hba, hra⟩ := toChecksum_ok_inv hoka
  obtain ⟨hvb, bytesb, hbb, hrb⟩ := toChecksum_ok_inv hokb
  have hhexa := (is_address_iff.mp hva).2
  have hhexb := (is_address_iff.mp hvb).2
  have hscan := replace0x_map_lower a.data.length a.data b.data
    (Nat.le_refl _) hmap hhexa hhexb
  have hdec : hexDecode (replace0x a.data) = hexDecode (replace0x b.data) :=
    hexDecode_congr_lower hscan hhexa hhexb
  have hbytes : bytesa = bytesb := by
    rw [hba, hbb] at hdec
    exact Option.some.inj hdec
  subst hbytes
  have hcmap := checksumMap_congr_lower hscan hhexa hhexb
    (natFromBeBytes (sha256 bytesa)) 0
  rw [hra, hrb, hcmap]

/-- Witness for C10 on an all-lowercase and an all-uppercase rendering of the
known vector address: both map to the same checksummed output. -/
theorem claim_C10_witness :
    (String.data "11223344556677889900aabbccddeeff11223344").map asciiToLower
        = (String.data "11223344556677889900AABBCCDDEEFF11223344").map
            asciiToLower ∧
      to_checksum_address "11223344556677889900aabbccddeeff11223344" =
        .ok "0x11223344556677889900AabbccdDeefF11223344" ∧
      to_checksum_address "11223344556677889900AABBCCDDEEFF11223344" =
        .ok "0x11223344556677889900AabbccdDeefF11223344" ∧
      ("0x11223344556677889900AabbccdDeefF11223344" : String) =
        "0x11223344556677889900AabbccdDeefF11223344" := by
  have h1 : (String.data "11223344556677889900aabbccddeeff11223344").map
      asciiToLower =
      (String.data "11223344556677889900AABBCCDDEEFF11223344").map
        asciiToLower := by decide
  have h2 : to_checksum_address "11223344556677889900aabbccddeeff11223344" =
      .ok "0x11223344556677889900AabbccdDeefF11223344" := by decide
  have h3 : to_checksum_address "11223344556677889900AABBCCDDEEFF11223344" =
      .ok "0x11223344556677889900AabbccdDeefF11223344" := by decide
  exact ⟨h1, h2, h3, claim_C10 _ _ _ _ h1 h2 h3⟩

lemma pub_key_replace_eq_strip {s : List Char} (h : is_pub_key s = true) :
    replace0x (s.map asciiToLower) = strip0xPrefix (s.map asciiToLower) := by
  by_cases hp : ∃ rest, s = '0' :: 'x' :: rest ∨ s = '0' :: 'X' :: rest
  · obtain ⟨rest, hform⟩ := hp
    have hbody : strip0xPrefixCI s = rest := by
      rcases hform with rfl | rfl
      · rw [strip0xPrefixCI.eq_1]
      · rw [strip0xPrefixCI.eq_2]
    have hhex : ∀ c ∈ rest, isHexDigitChar c = true := by
      unfold is_pub_key at h
      rw [hbody] at h
      simp only [Bool.and_eq_true, List.all_eq_true] at h
      exact h.1.2
    have hm_nx : ∀ c ∈ rest.map asciiToLower, c ≠ 'x' := by
      intro c hc
      obtain ⟨d, hd, rfl⟩ := List.mem_map.mp hc
      exact hex_asciiToLower_ne_x (hhex d hd)
    have hmap : s.map asciiToLower = '0' :: 'x' :: rest.map asciiToLower := by
      rcases hform with rfl | rfl
      · simp only [List.map_cons]
        rw [show asciiToLower '0' = '0' from by decide,
          show asciiToLower 'x' = 'x' from by decide]
      · simp only [List.map_cons]
        rw [show asciiToLower '0' = '0' from by decide,
          show asciiToLower 'X' = 'x' from by decide]
    rw [hmap, replace0x.eq_2, strip0xPrefix.eq_1, replace0x_of_no_x hm_nx]
  · have hci : strip0xPrefixCI s = s := by
      apply strip0xPrefixCI.eq_3
      · rintro rest rfl
        exact hp ⟨rest, Or.inl rfl⟩
      · rintro rest rfl
        exact hp ⟨rest, Or.inr rfl⟩
    have hhex : ∀ c ∈ s, isHexDigitChar c = true := by
      unfold is_pub_key at h
      rw [hci] at h
      simp only [Bool.and_eq_true, List.all_eq_true] at h
      exact h.1.2
    have hm_nx : ∀ c ∈ s.map asciiToLower, c ≠ 'x' := by
      intro c hc
      obtain ⟨d, hd, rfl⟩ := List.mem_map.mp hc
      exact hex_asciiToLower_ne_x (hhex d hd)
    rw [replace0x_of_no_x hm_nx, strip0xPrefix.eq_2 _ (no_x_not_0x_prefixed hm_nx)]

/-- Claim C2 as amended: on every well-formed compressed public key hex
string, `get_address_from_public_key` agrees with the specified pipeline —
lowercase and strip the prefix, hex-decode, hash, take the last 20 bytes
(40 hex characters, not 16 bytes / 32 characters as claimed) of the digest
hex, and checksum that string. -/
theorem claim_C2 :
    ∀ p : String, is_pub_key p.data = true →
      get_address_from_public_key p = deriveAddress_specAmended p := by
  intro p h
  unfold get_address_from_public_key deriveAddress_specAmended
  rw [pub_key_replace_eq_strip h]

/-- Counterexample to C2 as stated: with the claimed 32-character truncation
the pipeline hands `to_checksum_address` a 32-character string, which fails
the 40-character address grammar, so no address is ever produced — while the
code, which keeps the digest hex from character 24 on (40 characters), maps
the known-vector public key to its documented address. -/
theorem claim_C2_counterexample :
    isOkE (deriveAddress_specClaimed
        "03bfad0f0b53cff5213b5947f3ddd66acee8906aba3610c111915aecc84092e052")
        = false ∧
      get_address_from_public_key
          "03bfad0f0b53cff5213b5947f3ddd66acee8906aba3610c111915aecc84092e052"
        = .ok "0x381f4008505e940AD7681EC3468a719060caF796" :=
  ⟨by decide, by decide⟩

/-- Witness for C2 (amended) at the known-vector public key. -/
theorem claim_C2_witness :
    is_pub_key (String.data
        "03bfad0f0b53cff5213b5947f3ddd66acee8906aba3610c111915aecc84092e052")
        = true ∧
      get_address_from_public_key
          "03bfad0f0b53cff5213b5947f3ddd66acee8906aba3610c111915aecc84092e052"
        = deriveAddress_specAmended
          "03bfad0f0b53cff5213b5947f3ddd66acee8906aba3610c111915aecc84092e052" :=
  ⟨by decide,
    claim_C2 "03bfad0f0b53cff5213b5947f3ddd66acee8906aba3610c111915aecc84092e052"
      (by decide)⟩

/-! ## Wallet lemmas and claims -/

lemma resolve_signer_provider (w : Wallet)
    (p : String → Except AccountError BalanceResponse) (tx : Transaction) :
    Wallet.resolve_signer { w with provider := p } tx = w.resolve_signer tx := rfl

/-- Claim C3: `sign_transaction` resolves the signing account in strict order:
a carried signer public key has its address derived and looked up, failing
with `AccountDoesNotExist` on a miss even when a default account is set;
otherwise the default account is used when set; otherwise the call fails with
`NeitherPubKeyNorDefaultAccountProvided`. -/
theorem claim_C3 :
    (∀ (w : Wallet) (tx : Transaction) (pk addr : String),
      tx.pub_key = some pk →
      get_address_from_public_key pk = .ok addr →
      mapGet addr w.accounts = none →
      w.sign_transaction tx = .error (.AccountDoesNotExist addr)) ∧
    (∀ (w : Wallet) (tx : Transaction) (pk addr : String) (account : Account),
      tx.pub_key = some pk →
      get_address_from_public_key pk = .ok addr →
      mapGet addr w.accounts = some account →
      w.sign_transaction tx = w.sign_with account tx) ∧
    (∀ (w : Wallet) (tx : Transaction) (account : Account),
      tx.pub_key = none → w.default_account = some account →
      w.sign_transaction tx = w.sign_with account tx) ∧
    (∀ (w : Wallet) (tx : Transaction),
      tx.pub_key = none → w.default_account = none →
      w.sign_transaction tx = .error .NeitherPubKeyNorDefaultAccountProvided) := by
  refine ⟨?_, ?_, ?_, ?_⟩
  · intro w tx pk addr hpk haddr hget
    unfold Wallet.sign_transaction Wallet.resolve_signer
    simp only [hpk, haddr, hget]
  · intro w tx pk addr account hpk haddr hget
    unfold Wallet.sign_transaction Wallet.resolve_signer
    simp only [hpk, haddr, hget]
  · intro w tx account hpk hdef
    unfold Wallet.sign_transaction Wallet.resolve_signer
    simp only [hpk, hdef]
  · intro w tx hpk hdef
    unfold Wallet.sign_transaction Wallet.resolve_signer
    simp only [hpk, hdef]

/-- Claim C4: after the signer is resolved, a sentinel nonce of `0` is
replaced by the provider-reported nonce plus one before signing, while a
non-zero nonce is passed to signing unchanged with no provider interaction
(the outcome is the same under every provider). -/
theorem claim_C4 :
    (∀ (w : Wallet) (tx : Transaction) (account : Account)
        (r : BalanceResponse),
      tx.nonce = 0 →
      w.resolve_signer tx = .ok account →
      w.provider account.address = .ok r →
      w.sign_transaction tx =
        .ok (account.sign { tx with nonce := r.nonce + 1 })) ∧
    (∀ (w : Wallet) (p : String → Except AccountError BalanceResponse)
        (tx : Transaction) (account : Account),
      tx.nonce ≠ 0 →
      w.resolve_signer tx = .ok account →
      Wallet.sign_transaction { w with provider := p } tx =
        .ok (account.sign tx)) := by
  constructor
  · intro w tx account r h0 hres hprov
    unfold Wallet.sign_transaction
    simp only [hres]
    unfold Wallet.sign_with Wallet.nonce
    simp only [if_pos h0, hprov]
  · intro w p tx account h0 hres
    unfold Wallet.sign_transaction
    rw [resolve_signer_provider]
    simp only [hres]
    unfold Wallet.sign_with
    rw [if_neg h0]

/-- A concrete provider collaborator used by the wallet witnesses. -/
def testProvider : String → Except AccountError BalanceResponse :=
  fun _ => .ok { balance := 0, nonce := 5 }

/-- A concrete account used by the wallet witnesses; its signing capability is
the identity. -/
def testAccount : Account :=
  { private_key := "k", public_key := "p", address := "0xother",
    sign := fun tx => tx }

/-- Witness for C3: all four resolution branches at concrete wallets, the
miss branch exercised with a default account set. -/
theorem claim_C3_witness :
    Wallet.sign_transaction
        { default_account := some testAccount, provider := testProvider,
          accounts := [] }
        { pub_key := some
            "03bfad0f0b53cff5213b5947f3ddd66acee8906aba3610c111915aecc84092e052",
          nonce := 0 } =
      .error (.AccountDoesNotExist
        "0x381f4008505e940AD7681EC3468a719060caF796") ∧
    Wallet.sign_transaction
        { default_account := none, provider := testProvider,
          accounts := [("0x381f4008505e940AD7681EC3468a719060caF796",
            testAccount)] }
        { pub_key := some
            "03bfad0f0b53cff5213b5947f3ddd66acee8906aba3610c111915aecc84092e052",
          nonce := 0 } =
      Wallet.sign_with
        { default_account := none, provider := testProvider,
          accounts := [("0x381f4008505e940AD7681EC3468a719060caF796",
            testAccount)] }
        testAccount
        { pub_key := some
            "03bfad0f0b53cff5213b5947f3ddd66acee8906aba3610c111915aecc84092e052",
          nonce := 0 } ∧
    Wallet.sign_transaction
        { default_account := some testAccount, provider := testProvider,
          accounts := [] }
        { pub_key := none, nonce := 1 } =
      Wallet.sign_with
        { default_account := some testAccount, provider := testProvider,
          accounts := [] }
        testAccount { pub_key := none, nonce := 1 } ∧
    Wallet.sign_transaction (Wallet.new testProvider)
        { pub_key := none, nonce := 1 } =
      .error .NeitherPubKeyNorDefaultAccountProvided :=
  ⟨claim_C3.1 _ _
      "03bfad0f0b53cff5213b5947f3ddd66acee8906aba3610c111915aecc84092e052"
      "0x381f4008505e940AD7681EC3468a719060caF796" rfl (by decide) rfl,
    claim_C3.2.1 _ _
      "03bfad0f0b53cff5213b5947f3ddd66acee8906aba3610c111915aecc84092e052"
      "0x381f4008505e940AD7681EC3468a719060caF796" testAccount rfl (by decide)
      rfl,
    claim_C3.2.2.1 _ _ testAccount rfl rfl,
    claim_C3.2.2.2 _ _ rfl rfl⟩

/-- Witness for C4: the sentinel-nonce branch picks up the fetched nonce plus
one, and a non-zero nonce signs unchanged under a provider that always
fails. -/
theorem claim_C4_witness :
    Wallet.sign_transaction
        { default_account := some testAccount, provider := testProvider,
          accounts := [] }
        { pub_key := none, nonce := 0 } =
      .ok { pub_key := none, nonce := 6 } ∧
    Wallet.sign_transaction
        { default_account := some testAccount,
          provider := fun _ => .error .TransportError, accounts := [] }
        { pub_key := none, nonce := 7 } =
      .ok { pub_key := none, nonce := 7 } :=
  ⟨claim_C4.1
      { default_account := some testAccount, provider := testProvider,
        accounts := [] }
      { pub_key := none, nonce := 0 } testAccount
      { balance := 0, nonce := 5 } rfl rfl rfl,
    claim_C4.2
      { default_account := some testAccount, provider := testProvider,
        accounts := [] }
      (fun _ => .error .TransportError)
      { pub_key := none, nonce := 7 } testAccount (by decide) rfl⟩

lemma mapGet_cons_self (k : String) (a : Account) (m : List (String × Account)) :
    mapGet k ((k, a) :: m) = some a := by
  unfold mapGet
  rw [List.find?_cons_of_pos _ (by simp)]
  rfl

lemma mapGet_cons_ne {k k2 : String} (h : k2 ≠ k) (a : Account)
    (m : List (String × Account)) :
    mapGet k ((k2, a) :: m) = mapGet k m := by
  unfold mapGet
  rw [List.find?_cons_of_neg _ (by simp [h])]

lemma mapGet_insert_self (k : String) (a : Account) (m : List (String × Account)) :
    mapGet k (mapInsert k a m) = some a :=
  mapGet_cons_self k a _

lemma mapGet_filter_ne {k k2 : String} (h : k ≠ k2) :
    ∀ m : List (String × Account),
      mapGet k (m.filter (fun p => !(p.1 == k2))) = mapGet k m := by
  intro m
  induction m with
  | nil => rfl
  | cons p m ih =>
    rcases p with ⟨pk, pa⟩
    by_cases hp : pk = k2
    · subst hp
      rw [List.filter_cons_of_neg (by simp), mapGet_cons_ne (fun he => h he.symm)]
      exact ih
    · rw [List.filter_cons_of_pos (by simp [hp])]
      by_cases hk : pk = k
      · subst hk
        rw [mapGet_cons_self, mapGet_cons_self]
      · rw [mapGet_cons_ne hk, mapGet_cons_ne hk]
        exact ih

lemma mapGet_remove_ne {k addr : String} (h : k ≠ addr)
    (m : List (String × Account)) :
    mapGet k (mapRemove addr m) = mapGet k m :=
  mapGet_filter_ne h m

lemma mapGet_insert_isSome {k : String} {m : List (String × Account)}
    (h : (mapGet k m).isSome = true) (k2 : String) (a : Account) :
    (mapGet k (mapInsert k2 a m)).isSome = true := by
  by_cases he : k = k2
  · subst he
    rw [mapGet_insert_self]
    rfl
  · unfold mapInsert
    rw [mapGet_cons_ne (fun hx => he hx.symm), mapGet_filter_ne he]
    exact h

lemma mapGet_mem {k : String} {a : Account} {m : List (String × Account)}
    (h : mapGet k m = some a) : (k, a) ∈ m := by
  unfold mapGet at h
  cases hf : m.find? (fun p => p.1 == k) with
  | none =>
    rw [hf] at h
    exact absurd h (by simp)
  | some p =>
    rw [hf] at h
    rcases p with ⟨pk, pa⟩
    have h2 : pa = a := by simpa using h
    have hp := List.find?_some hf
    have hpk : pk = k := eq_of_beq hp
    have hmem := List.mem_of_find?_eq_some hf
    rw [← hpk, ← h2]
    exact hmem

lemma coherent_insert {m : List (String × Account)}
    (hm : ∀ k b, (k, b) ∈ m → b.address = k) (a : Account) :
    ∀ k b, (k, b) ∈ mapInsert a.address a m → b.address = k := by
  intro k b hmem
  unfold mapInsert at hmem
  rcases List.mem_cons.mp hmem with he | hf
  · rw [Prod.mk.injEq] at he
    rw [he.2, he.1]
  · exact hm k b (List.mem_of_mem_filter hf)

lemma foldl_insert_coherent :
    ∀ (l : List Account) (m : List (String × Account)),
      (∀ k b, (k, b) ∈ m → b.address = k) →
      ∀ k b, (k, b) ∈ l.foldl (fun acc a => mapInsert a.address a acc) m →
        b.address = k := by
  intro l
  induction l with
  | nil => intro m hm; exact hm
  | cons a l ih =>
    intro m hm
    exact ih (mapInsert a.address a m) (coherent_insert hm a)

lemma foldl_insert_isSome :
    ∀ (l : List Account) (m : List (String × Account)) (k : String),
      (mapGet k m).isSome = true →
      (mapGet k (l.foldl (fun acc a => mapInsert a.address a acc) m)).isSome
        = true := by
  intro l
  induction l with
  | nil => intro m k h; exact h
  | cons a l ih =>
    intro m k h
    exact ih (mapInsert a.address a m) k (mapGet_insert_isSome h a.address a)

lemma reachable_coherent_inv :
    ∀ w : Wallet, Wallet.Reachable w → MapCoherent w ∧ WalletInv w := by
  intro w hr
  induction hr with
  | new p =>
    constructor
    · intro k a h
      exact absurd h (by simp [Wallet.new])
    · intro a h
      exact absurd h (by simp [Wallet.new])
  | new_with_accounts accounts p =>
    constructor
    · intro k a h
      exact foldl_insert_coherent accounts []
        (by intro k2 b hb; exact absurd hb (by simp)) k a h
    · intro a hdef
      rcases accounts with _ | ⟨a0, rest⟩
      · exact absurd hdef (by simp [Wallet.new_with_accounts])
      · have ha0 : a0 = a := by
          simpa [Wallet.new_with_accounts] using hdef
        subst ha0
        show (mapGet a0.address ((a0 :: rest).foldl
          (fun acc a => mapInsert a.address a acc) [])).isSome = true
        rw [List.foldl_cons]
        exact foldl_insert_isSome rest (mapInsert a0.address a0 []) a0.address
          (by rw [mapGet_insert_self]; rfl)
  | add_by_private_key w ec sign k w2 addr hr hok ih =>
    unfold Wallet.add_by_private_key at hok
    cases hacc : Account.new ec sign k with
    | error e =>
      rw [hacc] at hok
      exact absurd hok (by simp)
    | ok account =>
      rw [hacc] at hok
      cases hdef : w.default_account with
      | none =>
        simp only [hdef, Option.isNone_none, if_true] at hok
        simp only [Except.ok.injEq, Prod.mk.injEq] at hok
        obtain ⟨hw2, _⟩ := hok
        subst hw2
        constructor
        · intro k2 b hmem
          exact coherent_insert ih.1 account k2 b hmem
        · intro a ha
          have haa : account = a := by simpa using ha
          subst haa
          show (mapGet account.address
            (mapInsert account.address account w.accounts)).isSome = true
          rw [mapGet_insert_self]
          rfl
      | some d =>
        simp only [hdef, Option.isNone_some, Bool.false_eq_true, if_false]
          at hok
        simp only [Except.ok.injEq, Prod.mk.injEq] at hok
        obtain ⟨hw2, _⟩ := hok
        subst hw2
        constructor
        · intro k2 b hmem
          exact coherent_insert ih.1 account k2 b hmem
        · intro a ha
          have hda : d = a := by simpa using ha
          exact mapGet_insert_isSome (ih.2 a (by rw [hdef, hda]))
            account.address account
  | remove w addr hr ih =>
    constructor
    · intro k a hmem
      exact ih.1 k a (List.mem_of_mem_filter hmem)
    · intro a ha
      have ha2 : (match w.default_account with
          | some account =>
            if account.address == addr then none else some account
          | none => none) = some a := ha
      show (mapGet a.address (mapRemove addr w.accounts)).isSome = true
      cases hdef : w.default_account with
      | none =>
        rw [hdef] at ha2
        exact absurd ha2 (by simp)
      | some acct =>
        rw [hdef] at ha2
        simp only at ha2
        by_cases hb : (acct.address == addr) = true
        · rw [if_pos hb] at ha2
          exact absurd ha2 (by simp)
        · rw [if_neg hb] at ha2
          simp only [Option.some.injEq] at ha2
          have hne : a.address ≠ addr := by
            rw [← ha2]
            exact fun hx => hb (beq_iff_eq.mpr hx)
          rw [mapGet_remove_ne hne, ← ha2]
          exact ih.2 acct hdef
  | set_default w addr w2 hr hok ih =>
    unfold Wallet.set_default at hok
    cases hget : mapGet addr w.accounts with
    | none =>
      rw [hget] at hok
      exact absurd hok (by simp)
    | some account =>
      rw [hget] at hok
      simp only [Except.ok.injEq] at hok
      subst hok
      constructor
      · intro k a hmem
        exact ih.1 k a hmem
      · intro a ha
        have haa : account = a := by simpa using ha
        subst haa
        have haddr : account.address = addr := ih.1 addr account (mapGet_mem hget)
        show (mapGet account.address w.accounts).isSome = true
        rw [haddr, hget]
        rfl

/-- Claim C5: for every wallet state reachable through the constructors and
mutators, a set default account is stored in the accounts map under its own
address. -/
theorem claim_C5 : ∀ w : Wallet, Wallet.Reachable w → WalletInv w :=
  fun w hr => (reachable_coherent_inv w hr).2

/-- Witness for C5 at a wallet built from one bulk-loaded account. -/
theorem claim_C5_witness : WalletInv (Wallet.new_with_accounts [testAccount]
    testProvider) :=
  claim_C5 _ (Wallet.Reachable.new_with_accounts [testAccount] testProvider)

end ZilliqaRs
